import Mathlib

/-!
Shallow embedding of `src/Benchmark.cpp` of the HEPnOS-ICARUS-Benchmark
repository, together with theorems settling the specification claims.

The program is an MPI benchmark driver: every rank parses the command line,
rank 0 creates a dataset and a run and broadcasts the run descriptor, every
rank creates a sub-run keyed by its rank, then stores and reloads a list of
synthetic byte-buffer products, separated by barriers.

Modelling conventions:
* byte values are `Nat` (always reduced mod 256 where the code writes bytes);
* `double` values from `atof` are modelled as the exact rational value of the
  decimal literal (`ℚ`), which is faithful for the order comparisons the
  program performs on human-scale inputs;
* the MPI / HEPnOS calls a rank performs are recorded as an explicit event
  trace (`BenchEv`); collective semantics (broadcast, barrier) are expressed
  on top of the traces;
* fatal paths (`MPI_Abort` + `exit`) are explicit outcome constructors.
-/

namespace ICARUSBench

/-- Byte-fill loop of `run_benchmark` (Benchmark.cpp:189-192):
`products[i].data.resize(s)` zero-fills, then `data[j] = j % 256`
for each `j < s`, modelled as an indexed-store fold. -/
def mkData (s : Nat) : List Nat :=
  (List.range s).foldl (fun d j => d.set j (j % 256)) (List.replicate s 0)

/-- The product vector: one buffer per configured size, in order
(Benchmark.cpp:186-193). The generation reads only `g_product_sizes`;
neither the rank nor the rank-seeded `g_mte` RNG (initialized in `main`
but never used) occurs in the loop. -/
def makeProducts (sizes : List Nat) : List (List Nat) := sizes.map mkData

theorem foldl_set_length (l init : List Nat) :
    (l.foldl (fun d j => d.set j (j % 256)) init).length = init.length := by
  induction l generalizing init with
  | nil => rfl
  | cons x xs ih => simp [List.foldl_cons, ih]

theorem mkData_length (s : Nat) : (mkData s).length = s := by
  simp [mkData, foldl_set_length]

theorem mkData_get? (s i : Nat) :
    (mkData s)[i]? = if i < s then some (i % 256) else none := by
  have key : ∀ n, n ≤ s → ∀ i,
      ((List.range n).foldl (fun d j => d.set j (j % 256)) (List.replicate s 0))[i]?
        = if i < n then some (i % 256) else if i < s then some (0 : Nat) else none := by
    intro n hn
    induction n with
    | zero =>
      intro i
      simp [List.getElem?_replicate]
    | succ m ih =>
      intro i
      rw [List.range_succ, List.foldl_append]
      have hm : m ≤ s := Nat.le_of_succ_le hn
      have hlen : ((List.range m).foldl (fun d j => d.set j (j % 256))
          (List.replicate s 0)).length = s := by
        simp [foldl_set_length]
      by_cases him : i = m
      · subst him
        simp only [List.foldl_cons, List.foldl_nil]
        rw [List.getElem?_set_self (by rw [hlen]; omega)]
        simp
      · simp only [List.foldl_cons, List.foldl_nil]
        rw [List.getElem?_set_ne (by omega)]
        rw [ih hm i]
        by_cases h1 : i < m
        · simp [h1, Nat.lt_succ_of_lt h1]
        · have : ¬ i < m + 1 := by omega
          simp [h1, this]
  have := key s (Nat.le_refl s) i
  unfold mkData
  rw [this]
  by_cases h : i < s <;> simp [h]

/-! ### Wait-range parsing (Benchmark.cpp:129-157)

The C++ matches the anchored regex
`^((0|([1-9][0-9]*))(\.[0-9]+)?)(,((0|([1-9][0-9]*))(\.[0-9]+)?))?$`
with `std::regex_search` and converts groups 1 and 6 with `atof`.
The anchored regex is embedded as a deterministic recursive-descent
matcher over the character list (no backtracking is ever needed: after a
number only `.`, `,` or end-of-string can follow, none of which is a digit,
and a `.` not followed by a digit can never be matched by any alternative). -/

/-- Maximal digit run at the head of the list, with the remainder. -/
def takeDigits : List Char → List Char × List Char
  | [] => ([], [])
  | c :: cs =>
    if c.isDigit then
      let p := takeDigits cs
      (c :: p.1, p.2)
    else ([], c :: cs)

/-- The `(0|[1-9][0-9]*)` alternative: a bare `0`, or a nonzero digit
followed by any digits. Returns the matched digits and the remainder. -/
def matchInt : List Char → Option (List Char × List Char)
  | [] => none
  | c :: cs =>
    if c = '0' then some (['0'], cs)
    else if c.isDigit then
      let p := takeDigits cs
      some (c :: p.1, p.2)
    else none

/-- The optional `(\.[0-9]+)?` group. `none` result means the whole regex
match fails (a `.` present but not followed by a digit can close no match). -/
def matchOptFrac : List Char → Option (Option (List Char) × List Char)
  | [] => some (none, [])
  | c :: cs =>
    if c = '.' then
      let p := takeDigits cs
      if p.1 = [] then none else some (some p.1, p.2)
    else some (none, c :: cs)

/-- Integer and optional fractional digit strings of one matched `NUM`. -/
structure NumParts where
  ip : List Char
  fp : Option (List Char)
deriving DecidableEq

def digitVal (c : Char) : Nat := c.toNat - 48

def digitsVal (ds : List Char) : Nat := ds.foldl (fun a c => 10 * a + digitVal c) 0

/-- Exact rational value of the decimal literal, modelling `atof`
(exact for the order comparisons the program performs). -/
def numVal (n : NumParts) : ℚ :=
  (digitsVal n.ip : ℚ) +
    (match n.fp with
     | none => 0
     | some f => (digitsVal f : ℚ) / 10 ^ f.length)

/-- Full anchored match of the wait-range regex: `NUM(,NUM)?` against the
whole string; returns the two captured numbers (second `none` when absent,
mirroring an empty group 6). -/
def matchWait (cs : List Char) : Option (NumParts × Option NumParts) := do
  let p1 ← matchInt cs
  let q1 ← matchOptFrac p1.2
  match q1.2 with
  | [] => some (⟨p1.1, q1.1⟩, none)
  | c :: r3 =>
    if c = ',' then do
      let p2 ← matchInt r3
      let q2 ← matchOptFrac p2.2
      if q2.2 = [] then some (⟨p1.1, q1.1⟩, some ⟨p2.1, q2.1⟩) else none
    else none

/-- Critical diagnostics the program can emit before/at a fatal abort. -/
inductive Diag where
  | fileMissing (filename : String)
  | argError
  | invalidWaitExpr (s : String)
  | invalidWaitOrder (s : String) (hi lo : ℚ)
  | connectFail
deriving DecidableEq

/-- Result of `parse_wait_range` on one rank: either the returned pair or a
fatal path (critical log + `MPI_Abort` + `exit(-1)`). -/
inductive WROutcome where
  | ok (lo hi : ℚ)
  | fatal (code : Int) (d : Diag)
deriving DecidableEq

/-- `parse_wait_range` (Benchmark.cpp:129-157). On a regex mismatch only
rank 0 logs and aborts (Benchmark.cpp:143-147); a non-coordinator falls
through with the initial `{0.0, 0.0}` range, and since `0 < 0` is false it
returns `(0,0)`. The `max < min` check (Benchmark.cpp:149-154) is
unguarded and fatal on every rank. -/
def parse_wait_range (rank : Nat) (s : String) : WROutcome :=
  match matchWait s.data with
  | some (n1, on2) =>
    let lo := numVal n1
    let hi := match on2 with
      | none => lo
      | some n2 => numVal n2
    if hi < lo then .fatal (-1) (.invalidWaitOrder s hi lo) else .ok lo hi
  | none =>
    if rank = 0 then .fatal (-1) (.invalidWaitExpr s)
    else .ok 0 0

/-- Well-formedness of the integer part per the regex `(0|[1-9][0-9]*)`:
a bare `0`, or a nonzero digit followed by digits. -/
def wfInt : List Char → Bool
  | [] => false
  | c :: cs =>
    if c = '0' then cs = ([] : List Char)
    else c.isDigit && cs.all Char.isDigit

/-- Well-formedness of a `NUM` per the regex: well-formed integer part,
and the fraction (when present) is a nonempty digit run. -/
def wfNum (n : NumParts) : Bool :=
  wfInt n.ip
  && (match n.fp with
      | none => true
      | some f => !(f = []) && f.all Char.isDigit)

/-- The character string a `NumParts` denotes. -/
def renderNum (n : NumParts) : List Char :=
  n.ip ++ (match n.fp with
           | none => []
           | some f => '.' :: f)

/-- The string `x,y` for two numbers. -/
def renderPair (n1 n2 : NumParts) : List Char :=
  renderNum n1 ++ ',' :: renderNum n2

/-- The fraction characters a `NumParts` contributes to its rendering. -/
def fracRender (n : NumParts) : List Char :=
  match n.fp with
  | none => []
  | some f => '.' :: f

theorem renderNum_eq (n : NumParts) : renderNum n = n.ip ++ fracRender n := rfl

/-- What may legally follow a fully matched `NUM`: nothing, or a character
that is neither a digit nor a dot (in this development: a comma). -/
def sepOk : List Char → Bool
  | [] => true
  | c :: _ => !c.isDigit && !(c = '.')

def noDigitHead : List Char → Bool
  | [] => true
  | c :: _ => !c.isDigit

theorem noDigitHead_of_sepOk {rest : List Char} (h : sepOk rest = true) :
    noDigitHead rest = true := by
  cases rest with
  | nil => rfl
  | cons c cs =>
    simp only [sepOk, Bool.and_eq_true] at h
    simpa [noDigitHead] using h.1

theorem takeDigits_append (ds rest : List Char)
    (h1 : ds.all Char.isDigit = true) (h2 : noDigitHead rest = true) :
    takeDigits (ds ++ rest) = (ds, rest) := by
  induction ds with
  | nil =>
    cases rest with
    | nil => rfl
    | cons c cs =>
      have hc : c.isDigit = false := by simpa [noDigitHead] using h2
      simp [takeDigits, hc]
  | cons d ds ih =>
    rw [List.all_cons, Bool.and_eq_true] at h1
    simp [takeDigits, h1.1, ih h1.2]

theorem matchInt_append (ip rest : List Char)
    (h1 : wfInt ip = true) (h2 : noDigitHead rest = true) :
    matchInt (ip ++ rest) = some (ip, rest) := by
  cases ip with
  | nil => simp [wfInt] at h1
  | cons c cs =>
    by_cases hc : c = '0'
    · subst hc
      have hcs : cs = [] := by simpa [wfInt] using h1
      subst hcs
      simp [matchInt]
    · rw [wfInt] at h1
      simp only [if_neg hc, Bool.and_eq_true] at h1
      have hdig : c.isDigit = true := h1.1
      have hne0 : ¬ c = '0' := hc
      simp [matchInt, hne0, hdig, takeDigits_append cs rest h1.2 h2]

theorem matchOptFrac_sep (rest : List Char) (h : sepOk rest = true) :
    matchOptFrac rest = some (none, rest) := by
  cases rest with
  | nil => rfl
  | cons c cs =>
    simp only [sepOk, Bool.and_eq_true, Bool.not_eq_true'] at h
    have : ¬ c = '.' := by simpa using h.2
    simp [matchOptFrac, this]

theorem matchOptFrac_frac (f rest : List Char) (hne : f ≠ [])
    (hd : f.all Char.isDigit = true) (h2 : noDigitHead rest = true) :
    matchOptFrac ('.' :: (f ++ rest)) = some (some f, rest) := by
  simp [matchOptFrac, takeDigits_append f rest hd h2, hne]

theorem wfNum_int {n : NumParts} (h : wfNum n = true) : wfInt n.ip = true := by
  rw [wfNum, Bool.and_eq_true] at h
  exact h.1

theorem matchOptFrac_render (n : NumParts) (rest : List Char)
    (hwf : wfNum n = true) (hsep : sepOk rest = true) :
    matchOptFrac (fracRender n ++ rest) = some (n.fp, rest) := by
  rw [wfNum, Bool.and_eq_true] at hwf
  cases hfp : n.fp with
  | none =>
    rw [fracRender, hfp]
    simpa using matchOptFrac_sep rest hsep
  | some f =>
    rw [hfp] at hwf
    simp only [Bool.and_eq_true, Bool.not_eq_true', decide_eq_false_iff_not] at hwf
    rw [fracRender, hfp]
    simp only [List.cons_append]
    exact matchOptFrac_frac f rest hwf.2.1 hwf.2.2 (noDigitHead_of_sepOk hsep)

theorem noDigitHead_fracRender (n : NumParts) (rest : List Char)
    (hsep : sepOk rest = true) :
    noDigitHead (fracRender n ++ rest) = true := by
  cases hfp : n.fp with
  | none =>
    rw [fracRender, hfp]
    simpa using noDigitHead_of_sepOk hsep
  | some f =>
    rw [fracRender, hfp]
    simp [noDigitHead]

theorem matchInt_render (n : NumParts) (rest : List Char)
    (hwf : wfNum n = true) (hsep : sepOk rest = true) :
    matchInt (renderNum n ++ rest) =
      some (n.ip, fracRender n ++ rest) := by
  rw [renderNum_eq, List.append_assoc]
  exact matchInt_append n.ip (fracRender n ++ rest) (wfNum_int hwf)
    (noDigitHead_fracRender n rest hsep)

theorem matchWait_single (n : NumParts) (hwf : wfNum n = true) :
    matchWait (renderNum n) = some (n, none) := by
  have h1 : matchInt (renderNum n ++ []) = some (n.ip, fracRender n ++ []) :=
    matchInt_render n [] hwf rfl
  rw [List.append_nil] at h1
  have h2 : matchOptFrac (fracRender n ++ []) = some (n.fp, []) :=
    matchOptFrac_render n [] hwf rfl
  rw [List.append_nil] at h1 h2
  simp [matchWait, h1, h2]

theorem matchWait_pair (n1 n2 : NumParts)
    (h1 : wfNum n1 = true) (h2 : wfNum n2 = true) :
    matchWait (renderPair n1 n2) = some (n1, some n2) := by
  have hsep : sepOk (',' :: renderNum n2) = true := rfl
  have e1 : matchInt (renderNum n1 ++ ',' :: renderNum n2) =
      some (n1.ip, fracRender n1 ++ ',' :: renderNum n2) :=
    matchInt_render n1 _ h1 hsep
  have e2 : matchOptFrac (fracRender n1 ++ ',' :: renderNum n2) =
      some (n1.fp, ',' :: renderNum n2) :=
    matchOptFrac_render n1 _ h1 hsep
  have e3 : matchInt (renderNum n2 ++ []) = some (n2.ip, fracRender n2 ++ []) :=
    matchInt_render n2 [] h2 rfl
  rw [List.append_nil] at e3
  have e4 : matchOptFrac (fracRender n2 ++ []) = some (n2.fp, []) :=
    matchOptFrac_render n2 [] h2 rfl
  rw [List.append_nil] at e3 e4
  simp [matchWait, renderPair, e1, e2, e3, e4]

/-- C3: every valid wait-range string `"x"` parses to `(x,x)` and `"x,y"`
with `y ≥ x` parses to `(x,y)`; `y < x` is fatal on every rank with a
diagnostic carrying both values (Benchmark.cpp:149-154); a string not
matching the `NUM` / `NUM,NUM` regex is fatal at the coordinator with a
diagnostic naming the string (Benchmark.cpp:142-148), which aborts the
whole group via `MPI_Abort(MPI_COMM_WORLD, -1)`. -/
theorem c3_wait_range_parse :
    (∀ (rank : Nat) (n : NumParts), wfNum n = true →
      parse_wait_range rank (String.mk (renderNum n)) = .ok (numVal n) (numVal n))
    ∧ (∀ (rank : Nat) (n1 n2 : NumParts), wfNum n1 = true → wfNum n2 = true →
        numVal n1 ≤ numVal n2 →
        parse_wait_range rank (String.mk (renderPair n1 n2)) =
          .ok (numVal n1) (numVal n2))
    ∧ (∀ (rank : Nat) (n1 n2 : NumParts), wfNum n1 = true → wfNum n2 = true →
        numVal n2 < numVal n1 →
        parse_wait_range rank (String.mk (renderPair n1 n2)) =
          .fatal (-1) (.invalidWaitOrder (String.mk (renderPair n1 n2))
            (numVal n2) (numVal n1)))
    ∧ (∀ s : String, matchWait s.data = none →
        parse_wait_range 0 s = .fatal (-1) (.invalidWaitExpr s)) := by
  refine ⟨?_, ?_, ?_, ?_⟩
  · intro rank n hwf
    have hm : matchWait (String.mk (renderNum n)).data = some (n, none) :=
      matchWait_single n hwf
    simp [parse_wait_range, hm]
  · intro rank n1 n2 h1 h2 hle
    have hm : matchWait (String.mk (renderPair n1 n2)).data = some (n1, some n2) :=
      matchWait_pair n1 n2 h1 h2
    simp [parse_wait_range, hm, not_lt.mpr hle]
  · intro rank n1 n2 h1 h2 hlt
    have hm : matchWait (String.mk (renderPair n1 n2)).data = some (n1, some n2) :=
      matchWait_pair n1 n2 h1 h2
    simp [parse_wait_range, hm, hlt]
  · intro s hm
    simp [parse_wait_range, hm]

/-- Witness for C3: `"1,2.5"` at rank 1 parses to `(1, 5/2)`, and the
non-matching string `"abc"` is fatal at the coordinator. -/
theorem c3_wait_range_parse_witness :
    parse_wait_range 1 (String.mk (renderPair ⟨['1'], none⟩ ⟨['2'], some ['5']⟩))
      = .ok (numVal ⟨['1'], none⟩) (numVal ⟨['2'], some ['5']⟩)
    ∧ parse_wait_range 0 "abc" = .fatal (-1) (.invalidWaitExpr "abc")
    ∧ String.mk (renderPair ⟨['1'], none⟩ ⟨['2'], some ['5']⟩) = "1,2.5"
    ∧ numVal ⟨['1'], none⟩ = 1 ∧ numVal ⟨['2'], some ['5']⟩ = 5/2 := by
  have ha : numVal ⟨['1'], none⟩ = 1 := by
    have h1 : ('1'.toNat - 48) = 1 := by decide
    simp [numVal, digitsVal, digitVal, h1]
  have hb : numVal ⟨['2'], some ['5']⟩ = 5 / 2 := by
    have h2 : ('2'.toNat - 48) = 2 := by decide
    have h5 : ('5'.toNat - 48) = 5 := by decide
    simp only [numVal, digitsVal, digitVal, List.foldl_cons, List.foldl_nil,
      List.length_cons, List.length_nil, h2, h5]
    norm_num
  refine ⟨c3_wait_range_parse.2.1 1 _ _ (by decide) (by decide)
      (by rw [ha, hb]; norm_num),
    c3_wait_range_parse.2.2.2 "abc" (by decide), by decide, ha, hb⟩

/-! ### Product-size parsing (Benchmark.cpp:244-253)

`for(size_t i; ss >> i;) { result.push_back(i); if(ss.peek() == ',')
ss.ignore(); }` — formatted extraction `ss >> i` for a `size_t` under the
classic locale with the default `dec` base: skip whitespace, accept an
optional `+`/`-` sign, then a decimal digit run, converted as by
`strtoull` (C++11): no digit run, or a digit value above `ULLONG_MAX`,
fails — `failbit` ends the loop and the value is not pushed — while a `-`
sign succeeds and wraps the value modulo 2^64. A single following comma
is then skipped. -/

def isWsChar (c : Char) : Bool :=
  c = ' ' || c = '\t' || c = '\n' || c = '\r' ||
    c = Char.ofNat 11 || c = Char.ofNat 12

def skipWs : List Char → List Char
  | [] => []
  | c :: cs => if isWsChar c then skipWs cs else c :: cs

/-- Largest value of `size_t` (LP64). -/
def U64MAX : Nat := 2 ^ 64 - 1

/-- `if(ss.peek() == ',') ss.ignore();` -/
def dropComma : List Char → List Char
  | [] => []
  | c :: r => if c = ',' then r else c :: r

/-- The digit-run-and-convert tail of one extraction, after the optional
sign: a maximal digit run, converted as by `strtoull`; `neg` records a
leading `-`, which wraps the value modulo 2^64; no digits, or a digit
value above `ULLONG_MAX`, fails. -/
def extractDigits (neg : Bool) (cs : List Char) : Option (Nat × List Char) :=
  let p := takeDigits cs
  match p.1 with
  | [] => none
  | d :: ds =>
    let v := digitsVal (d :: ds)
    if U64MAX < v then none
    else some ((if neg then (2 ^ 64 - v) % 2 ^ 64 else v), p.2)

/-- One formatted extraction `ss >> i` into a `size_t`: skip whitespace,
then an optional `+` or `-` sign, then `extractDigits`. -/
def extractU64 (cs : List Char) : Option (Nat × List Char) :=
  match skipWs cs with
  | [] => none
  | c :: rest =>
    if c = '-' then extractDigits true rest
    else if c = '+' then extractDigits false rest
    else extractDigits false (c :: rest)

/-- The extraction loop, with explicit fuel: each successful iteration
consumes at least one character, so `length + 1` fuel always suffices. -/
def parseSizesAux : Nat → List Char → List Nat
  | 0, _ => []
  | fuel + 1, cs =>
    match extractU64 cs with
    | none => []
    | some (v, rest) => v :: parseSizesAux fuel (dropComma rest)

/-- `parse_product_sizes` (Benchmark.cpp:244-253). -/
def parse_product_sizes (s : String) : List Nat :=
  parseSizesAux (s.length + 1) s.data

/-- Modelled from the claim's words for C6 (the spec's "malformed tokens
are simply skipped ... still yields the sizes of the remaining well-formed
tokens"): split on commas and keep the value of every all-digit token. -/
def sizesSkippingMalformed (s : String) : List Nat :=
  (s.data.splitOn ',').filterMap fun t =>
    if t ≠ [] ∧ t.all Char.isDigit = true then some (digitsVal t) else none

/-- One token the extraction accepts whole: an optional sign character
and a digit run. -/
structure SizeTok where
  sgn : Option Char
  digits : List Char

/-- The characters a token denotes. -/
def renderTok (t : SizeTok) : List Char :=
  (match t.sgn with
   | none => []
   | some c => [c]) ++ t.digits

/-- The `size_t` value the extraction produces for a token: the digit
value, wrapped modulo 2^64 under a `-` sign (`strtoull` negation). -/
def tokVal (t : SizeTok) : Nat :=
  if t.sgn = some '-' then (2 ^ 64 - digitsVal t.digits) % 2 ^ 64
  else digitsVal t.digits

/-- A well-formed token: the sign is absent, `-` or `+`, and the digit
run is nonempty with a value that fits in `size_t`. -/
def wfTok (t : SizeTok) : Bool :=
  (t.sgn = none || t.sgn = some '-' || t.sgn = some '+')
    && !(t.digits = []) && t.digits.all Char.isDigit
    && digitsVal t.digits ≤ U64MAX

/-- `t1,t2,...,tn` followed directly by `junk`. -/
def renderSeq : List SizeTok → List Char → List Char
  | [], junk => junk
  | [t], junk => renderTok t ++ junk
  | t :: ts, junk => renderTok t ++ ',' :: renderSeq ts junk

/-- Trailing input on which the extraction loop halts: it begins at a
token boundary (no digit glues onto the preceding token) and the next
`ss >> i` fails both immediately and after one comma skip. -/
def junkOk (junk : List Char) : Prop :=
  noDigitHead junk = true
    ∧ extractU64 junk = none
    ∧ extractU64 (dropComma junk) = none

theorem isWsChar_of_digit {c : Char} (h : c.isDigit = true) :
    isWsChar c = false := by
  have h48 : 48 ≤ c.toNat ∧ c.toNat ≤ 57 := by
    rw [Char.isDigit] at h
    simp only [Bool.and_eq_true, decide_eq_true_eq] at h
    exact ⟨h.1, h.2⟩
  by_contra hw
  rw [Bool.not_eq_false, isWsChar] at hw
  simp only [Bool.or_eq_true, decide_eq_true_eq] at hw
  rcases hw with ((((h' | h') | h') | h') | h') | h' <;>
    (subst h'; revert h48; decide)

theorem skipWs_digit_head {c : Char} (cs : List Char) (h : c.isDigit = true) :
    skipWs (c :: cs) = c :: cs := by
  simp [skipWs, isWsChar_of_digit h]

theorem digit_not_sign {c : Char} (h : c.isDigit = true) :
    ¬ c = '-' ∧ ¬ c = '+' := by
  constructor <;> intro he <;> subst he <;> exact absurd h (by decide)

theorem parseSizesAux_stop (junk : List Char) (fuel : Nat)
    (h : extractU64 junk = none) :
    parseSizesAux fuel junk = [] := by
  cases fuel with
  | zero => rfl
  | succ f => simp [parseSizesAux, h]

/-- Extraction of a bare digit run at the head of the input. -/
theorem extractU64_digits (d : Char) (ds rest : List Char)
    (hall : (d :: ds).all Char.isDigit = true)
    (hnd : noDigitHead rest = true)
    (hle : digitsVal (d :: ds) ≤ U64MAX) :
    extractU64 ((d :: ds) ++ rest) = some (digitsVal (d :: ds), rest) := by
  have hd : d.isDigit = true := by
    rw [List.all_cons, Bool.and_eq_true] at hall
    exact hall.1
  have hsk : skipWs (d :: (ds ++ rest)) = d :: (ds ++ rest) :=
    skipWs_digit_head _ hd
  have htk : takeDigits (d :: (ds ++ rest)) = (d :: ds, rest) := by
    rw [← List.cons_append]
    exact takeDigits_append _ _ hall hnd
  rw [List.cons_append, extractU64, hsk]
  simp [(digit_not_sign hd).1, (digit_not_sign hd).2, extractDigits, htk,
    Nat.not_lt.mpr hle]

/-- Extraction of a sign-bearing token at the head of the input: it
succeeds, a `-` wrapping the value modulo 2^64. -/
theorem extractU64_signed (c d : Char) (ds rest : List Char)
    (hc : c = '-' ∨ c = '+')
    (hall : (d :: ds).all Char.isDigit = true)
    (hnd : noDigitHead rest = true)
    (hle : digitsVal (d :: ds) ≤ U64MAX) :
    extractU64 ((c :: d :: ds) ++ rest)
      = some ((if c = '-' then (2 ^ 64 - digitsVal (d :: ds)) % 2 ^ 64
          else digitsVal (d :: ds)), rest) := by
  have htk : takeDigits (d :: (ds ++ rest)) = (d :: ds, rest) := by
    rw [← List.cons_append]
    exact takeDigits_append _ _ hall hnd
  rcases hc with hc | hc <;> subst hc
  · have hws : isWsChar '-' = false := by decide
    simp [extractU64, skipWs, hws, extractDigits, List.cons_append, htk,
      Nat.not_lt.mpr hle]
  · have hws : isWsChar '+' = false := by decide
    have hpm : ¬ ('+' = '-') := by decide
    simp [extractU64, skipWs, hws, hpm, extractDigits, List.cons_append, htk,
      Nat.not_lt.mpr hle]

/-- Extraction of a rendered well-formed token. -/
theorem extractU64_render (t : SizeTok) (rest : List Char)
    (hwf : wfTok t = true) (hnd : noDigitHead rest = true) :
    extractU64 (renderTok t ++ rest) = some (tokVal t, rest) := by
  rw [wfTok] at hwf
  simp only [Bool.and_eq_true, Bool.or_eq_true, Bool.not_eq_true',
    decide_eq_true_eq, decide_eq_false_iff_not] at hwf
  obtain ⟨⟨⟨hsgn, hne⟩, hall⟩, hle⟩ := hwf
  obtain ⟨d, ds, hds⟩ := List.exists_cons_of_ne_nil hne
  rcases hsgn with (hs | hs) | hs
  · have hrt : renderTok t = d :: ds := by simp [renderTok, hs, hds]
    rw [hrt, extractU64_digits d ds rest (hds ▸ hall) hnd (hds ▸ hle)]
    simp [tokVal, hs, hds]
  · have hrt : renderTok t = '-' :: d :: ds := by simp [renderTok, hs, hds]
    rw [hrt,
      extractU64_signed '-' d ds rest (Or.inl rfl) (hds ▸ hall) hnd (hds ▸ hle)]
    simp [tokVal, hs, hds]
  · have hrt : renderTok t = '+' :: d :: ds := by simp [renderTok, hs, hds]
    rw [hrt,
      extractU64_signed '+' d ds rest (Or.inr rfl) (hds ▸ hall) hnd (hds ▸ hle)]
    simp [tokVal, hs, hds]

theorem parseSizesAux_renderSeq (ts : List SizeTok) (junk : List Char)
    (hts : ∀ t ∈ ts, wfTok t = true) (hj : junkOk junk) :
    ∀ fuel, (renderSeq ts junk).length < fuel →
      parseSizesAux fuel (renderSeq ts junk) = ts.map tokVal := by
  induction ts with
  | nil =>
    intro fuel _
    exact parseSizesAux_stop junk fuel hj.2.1
  | cons t ts ih =>
    intro fuel hfuel
    have hwf := hts t (List.mem_cons_self t ts)
    cases ts with
    | nil =>
      rw [renderSeq] at hfuel ⊢
      obtain ⟨f, rfl⟩ : ∃ f, fuel = f + 1 := ⟨fuel - 1, by omega⟩
      rw [parseSizesAux, extractU64_render t junk hwf hj.1]
      simp [parseSizesAux_stop (dropComma junk) f hj.2.2]
    | cons t2 ts2 =>
      rw [show renderSeq (t :: t2 :: ts2) junk
          = renderTok t ++ ',' :: renderSeq (t2 :: ts2) junk from rfl]
        at hfuel ⊢
      obtain ⟨f, rfl⟩ : ∃ f, fuel = f + 1 := ⟨fuel - 1, by omega⟩
      rw [parseSizesAux,
        extractU64_render t (',' :: renderSeq (t2 :: ts2) junk) hwf rfl]
      have hrec := ih (fun u hu => hts u (List.mem_cons_of_mem _ hu))
        f (by simp [List.length_append] at hfuel ⊢; omega)
      simp [dropComma, hrec]

/-- C6 counterexample: on `"1,a,3"` the extraction loop stops at the
malformed token `a` and returns `[1]`; skipping malformed tokens, as the
claim states, would yield `[1, 3]`. -/
theorem c6_product_sizes_counterexample :
    parse_product_sizes "1,a,3" = [1]
    ∧ sizesSkippingMalformed "1,a,3" = [1, 3]
    ∧ parse_product_sizes "1,a,3" ≠ sizesSkippingMalformed "1,a,3" := by
  refine ⟨by decide, by decide, by decide⟩

/-- C6 amended: parsing never fails fatally. The loop repeatedly performs
stream extraction of a `size_t` — an optional `+`/`-` sign then a digit
run, a `-` value wrapping modulo 2^64, a missing digit run or a value
above `ULLONG_MAX` failing — and each successfully extracted token yields
one entry in input order; the loop stops at the first token on which
extraction fails and discards it and everything after it (malformed
tokens are not skipped). -/
theorem c6_product_sizes_amended (ts : List SizeTok) (junk : List Char)
    (hts : ∀ t ∈ ts, wfTok t = true) (hj : junkOk junk) :
    parse_product_sizes (String.mk (renderSeq ts junk)) = ts.map tokVal := by
  exact parseSizesAux_renderSeq ts junk hts hj _ (Nat.lt_succ_self _)

/-- Witness for the amended C6: `"1,-5,3"` extracts all three tokens —
the signed one wrapping to `2^64 - 5` — and `"1,a,3"` is one token
rendered before the halting junk `",a,3"`, parsing to exactly `[1]`. -/
theorem c6_product_sizes_amended_witness :
    parse_product_sizes (String.mk (renderSeq
        [⟨none, ['1']⟩, ⟨some '-', ['5']⟩, ⟨none, ['3']⟩] []))
      = [⟨none, ['1']⟩, ⟨some '-', ['5']⟩, (⟨none, ['3']⟩ : SizeTok)].map tokVal
    ∧ String.mk (renderSeq
        [⟨none, ['1']⟩, ⟨some '-', ['5']⟩, ⟨none, ['3']⟩] []) = "1,-5,3"
    ∧ [⟨none, ['1']⟩, ⟨some '-', ['5']⟩, (⟨none, ['3']⟩ : SizeTok)].map tokVal
      = [1, 2 ^ 64 - 5, 3]
    ∧ parse_product_sizes (String.mk (renderSeq [⟨none, ['1']⟩]
        [',', 'a', ',', '3'])) = [(⟨none, ['1']⟩ : SizeTok)].map tokVal
    ∧ String.mk (renderSeq [⟨none, ['1']⟩] [',', 'a', ',', '3']) = "1,a,3"
    ∧ [(⟨none, ['1']⟩ : SizeTok)].map tokVal = [1] := by
  refine ⟨c6_product_sizes_amended _ _ (by decide) ⟨rfl, rfl, rfl⟩,
    by decide, by decide,
    c6_product_sizes_amended _ _ (by decide) ⟨rfl, rfl, rfl⟩,
    by decide, by decide⟩

/-! ### The benchmark run (Benchmark.cpp:159-230) as a per-rank event trace -/

/-- The opaque run descriptor: the identity of the `dataset → run` pair.
Rank 0 serializes its run into it (`run.toDescriptor`, Benchmark.cpp:180)
and `MPI_Bcast(&run_descriptor, sizeof(run_descriptor), MPI_BYTE, 0, ...)`
replicates rank 0's fixed-size bytes to every rank (Benchmark.cpp:182). -/
structure Descriptor where
  dataset : String
  runNumber : Nat
deriving DecidableEq

/-- Descriptor the coordinator serializes: it created
`datastore.root().createDataSet(g_input_dataset)` and `createRun(0)`
(Benchmark.cpp:178-180). -/
def coordDescriptor (ds : String) : Descriptor := ⟨ds, 0⟩

/-- Descriptor a rank holds after the broadcast with root 0: the root's
value, byte for byte, on every rank. -/
def localDescriptor (ds : String) (_rank : Nat) : Descriptor := coordDescriptor ds

/-- One externally visible action of a rank inside `run_benchmark`. -/
inductive BenchEv where
  | connect
  | createDataSet (name : String)
  | createRun (runNumber : Nat)
  | serializeRun
  | bcastDescriptor
  | runFromDescriptor (d : Descriptor)
  | createSubRun (id : Nat)
  | barrier
  | createEvent (n : Nat)
  | storeOp (lbl : String) (data : List Nat)
  | infoStoreLine (size : Nat)
  | loadOp (lbl : String) (n : Nat)
  | errorMismatch
  | infoLoadLine (size : Nat)
  | shutdown
deriving DecidableEq

/-- Resource resolution (Benchmark.cpp:174-184): rank 0 creates the
dataset, creates run 0 and serializes it; every rank participates in the
broadcast, reconstructs a run handle from the broadcast descriptor
(`Run::fromDescriptor`), and creates the sub-run keyed by its own rank. -/
def resolvePhase (rank : Nat) (ds : String) : List BenchEv :=
  (if rank = 0 then [.createDataSet ds, .createRun 0, .serializeRun] else [])
    ++ [.bcastDescriptor, .runFromDescriptor (localDescriptor ds rank),
        .createSubRun rank]

/-- The store loop (Benchmark.cpp:197-205): per product, create the event
at the running sequence number, store under the label, log one info line. -/
def storeFrom (lbl : String) : Nat → List (List Nat) → List BenchEv
  | _, [] => []
  | evn, p :: ps =>
    .createEvent evn :: .storeOp lbl p :: .infoStoreLine p.length ::
      storeFrom lbl (evn + 1) ps

/-- The load loop (Benchmark.cpp:208-222): `resp evn` is the buffer the
external store returns for event `evn`; a mismatch with the kept original
logs one error line (Benchmark.cpp:216-218) and the loop continues with
the per-record info line and the next record. -/
def loadFrom (lbl : String) (resp : Nat → List Nat) :
    Nat → List (List Nat) → List BenchEv
  | _, [] => []
  | evn, p :: ps =>
    .loadOp lbl evn ::
      ((if resp evn ≠ p then [.errorMismatch] else []) ++
        (.infoLoadLine p.length :: loadFrom lbl resp (evn + 1) ps))

/-- Per-rank trace of `run_benchmark` after a successful connect
(Benchmark.cpp:159-230): resolution, barrier, store phase, barrier, load
phase, barrier, and the coordinator-only shutdown. -/
def benchTrace (rank : Nat) (ds lbl : String) (sizes : List Nat)
    (resp : Nat → List Nat) : List BenchEv :=
  .connect :: resolvePhase rank ds
    ++ .barrier :: storeFrom lbl 0 (makeProducts sizes)
    ++ .barrier :: loadFrom lbl resp 0 (makeProducts sizes)
    ++ .barrier :: (if rank = 0 then [.shutdown] else [])

def isCreateDataSet : BenchEv → Bool
  | .createDataSet _ => true
  | _ => false

def isCreateRun : BenchEv → Bool
  | .createRun _ => true
  | _ => false

def isSerializeRun : BenchEv → Bool
  | .serializeRun => true
  | _ => false

def isFromDescriptor : BenchEv → Bool
  | .runFromDescriptor _ => true
  | _ => false

def isBcast : BenchEv → Bool
  | .bcastDescriptor => true
  | _ => false

def isCreateSubRun : BenchEv → Bool
  | .createSubRun _ => true
  | _ => false

def isStoreOp : BenchEv → Bool
  | .storeOp _ _ => true
  | _ => false

def isLoadOp : BenchEv → Bool
  | .loadOp _ _ => true
  | _ => false

def isCreateEvent : BenchEv → Bool
  | .createEvent _ => true
  | _ => false

def isErr : BenchEv → Bool
  | .errorMismatch => true
  | _ => false

def isInfoStore : BenchEv → Bool
  | .infoStoreLine _ => true
  | _ => false

def isInfoLoad : BenchEv → Bool
  | .infoLoadLine _ => true
  | _ => false

/-- The data payloads of a trace's store operations. -/
def storedRecords (tr : List BenchEv) : List (List Nat) :=
  tr.filterMap fun e =>
    match e with
    | .storeOp _ d => some d
    | _ => none

theorem storeFrom_filter_eq_nil (lbl : String) (evn : Nat) (ps : List (List Nat))
    (p : BenchEv → Bool)
    (h1 : ∀ n, p (.createEvent n) = false)
    (h2 : ∀ s d, p (.storeOp s d) = false)
    (h3 : ∀ n, p (.infoStoreLine n) = false) :
    (storeFrom lbl evn ps).filter p = [] := by
  induction ps generalizing evn with
  | nil => rfl
  | cons q qs ih => simp [storeFrom, h1, h2, h3, ih]

theorem loadFrom_filter_eq_nil (lbl : String) (resp : Nat → List Nat) (evn : Nat)
    (ps : List (List Nat)) (p : BenchEv → Bool)
    (h1 : ∀ s n, p (.loadOp s n) = false)
    (h2 : p .errorMismatch = false)
    (h3 : ∀ n, p (.infoLoadLine n) = false) :
    (loadFrom lbl resp evn ps).filter p = [] := by
  induction ps generalizing evn with
  | nil => rfl
  | cons q qs ih =>
    by_cases hm : resp evn ≠ q <;> simp [loadFrom, hm, h1, h2, h3, ih]

/-- A predicate that holds only on resolution-phase events filters the
whole trace down to the resolution phase. -/
theorem benchTrace_filter_resolve (rank : Nat) (ds lbl : String)
    (sizes : List Nat) (resp : Nat → List Nat) (p : BenchEv → Bool)
    (hco : p .connect = false) (hba : p .barrier = false)
    (hsh : p .shutdown = false)
    (hce : ∀ n, p (.createEvent n) = false)
    (hso : ∀ s d, p (.storeOp s d) = false)
    (his : ∀ n, p (.infoStoreLine n) = false)
    (hlo : ∀ s n, p (.loadOp s n) = false)
    (herr : p .errorMismatch = false)
    (hil : ∀ n, p (.infoLoadLine n) = false) :
    (benchTrace rank ds lbl sizes resp).filter p =
      (resolvePhase rank ds).filter p := by
  have hs := storeFrom_filter_eq_nil lbl 0 (makeProducts sizes) p hce hso his
  have hl := loadFrom_filter_eq_nil lbl resp 0 (makeProducts sizes) p hlo herr hil
  by_cases hr : rank = 0 <;>
    simp [benchTrace, hr, List.filter_append, hco, hba, hsh, hs, hl]

/-- C1: only rank 0 creates the dataset, creates the run, and serializes
the run into the descriptor; every rank — rank 0 included — reconstructs a
local run handle from the broadcast descriptor, which equals the
coordinator's serialized descriptor, and each rank creates exactly one
sub-run, whose identifier is its own rank (Benchmark.cpp:174-184). -/
theorem c1_resolver_protocol (rank : Nat) (ds lbl : String) (sizes : List Nat)
    (resp : Nat → List Nat) :
    ((benchTrace rank ds lbl sizes resp).filter isCreateDataSet
       = if rank = 0 then [.createDataSet ds] else [])
    ∧ ((benchTrace rank ds lbl sizes resp).filter isCreateRun
       = if rank = 0 then [.createRun 0] else [])
    ∧ ((benchTrace rank ds lbl sizes resp).filter isSerializeRun
       = if rank = 0 then [.serializeRun] else [])
    ∧ ((benchTrace rank ds lbl sizes resp).filter
         (fun e => isBcast e || isFromDescriptor e)
       = [.bcastDescriptor, .runFromDescriptor (coordDescriptor ds)])
    ∧ ((benchTrace rank ds lbl sizes resp).filter isCreateSubRun
       = [.createSubRun rank]) := by
  refine ⟨?_, ?_, ?_, ?_, ?_⟩
  · rw [benchTrace_filter_resolve rank ds lbl sizes resp isCreateDataSet rfl rfl
      rfl (fun _ => rfl) (fun _ _ => rfl) (fun _ => rfl) (fun _ _ => rfl) rfl
      (fun _ => rfl)]
    by_cases hr : rank = 0 <;> simp [resolvePhase, hr, isCreateDataSet]
  · rw [benchTrace_filter_resolve rank ds lbl sizes resp isCreateRun rfl rfl
      rfl (fun _ => rfl) (fun _ _ => rfl) (fun _ => rfl) (fun _ _ => rfl) rfl
      (fun _ => rfl)]
    by_cases hr : rank = 0 <;> simp [resolvePhase, hr, isCreateRun]
  · rw [benchTrace_filter_resolve rank ds lbl sizes resp isSerializeRun rfl rfl
      rfl (fun _ => rfl) (fun _ _ => rfl) (fun _ => rfl) (fun _ _ => rfl) rfl
      (fun _ => rfl)]
    by_cases hr : rank = 0 <;> simp [resolvePhase, hr, isSerializeRun]
  · rw [benchTrace_filter_resolve rank ds lbl sizes resp
      (fun e => isBcast e || isFromDescriptor e) rfl rfl
      rfl (fun _ => rfl) (fun _ _ => rfl) (fun _ => rfl) (fun _ _ => rfl) rfl
      (fun _ => rfl)]
    by_cases hr : rank = 0 <;>
      simp [resolvePhase, hr, isBcast, isFromDescriptor, localDescriptor]
  · rw [benchTrace_filter_resolve rank ds lbl sizes resp isCreateSubRun rfl rfl
      rfl (fun _ => rfl) (fun _ _ => rfl) (fun _ => rfl) (fun _ _ => rfl) rfl
      (fun _ => rfl)]
    by_cases hr : rank = 0 <;> simp [resolvePhase, hr, isCreateSubRun]

/-- C9: the coordinator always creates the run with the hard-coded run
number 0 (Benchmark.cpp:179); the run number appears nowhere in the
configuration, so the `createRun` events are identical whatever the
dataset name, label, sizes or store contents are. -/
theorem c9_run_number_zero (rank : Nat) (ds ds2 lbl lbl2 : String)
    (sizes sizes2 : List Nat) (resp resp2 : Nat → List Nat) :
    ((benchTrace rank ds lbl sizes resp).filter isCreateRun
      = if rank = 0 then [.createRun 0] else [])
    ∧ ((benchTrace rank ds lbl sizes resp).filter isCreateRun
      = (benchTrace rank ds2 lbl2 sizes2 resp2).filter isCreateRun) := by
  have key : ∀ (d l : String) (sz : List Nat) (r : Nat → List Nat),
      (benchTrace rank d l sz r).filter isCreateRun
        = if rank = 0 then [.createRun 0] else [] := by
    intro d l sz r
    rw [benchTrace_filter_resolve rank d l sz r isCreateRun rfl rfl
      rfl (fun _ => rfl) (fun _ _ => rfl) (fun _ => rfl) (fun _ _ => rfl) rfl
      (fun _ => rfl)]
    by_cases hr : rank = 0 <;> simp [resolvePhase, hr, isCreateRun]
  exact ⟨key ds lbl sizes resp, by rw [key, key]⟩

theorem storedRecords_storeFrom (lbl : String) (evn : Nat)
    (ps : List (List Nat)) : storedRecords (storeFrom lbl evn ps) = ps := by
  induction ps generalizing evn with
  | nil => rfl
  | cons q qs ih =>
    simp only [storedRecords] at ih ⊢
    simp [storeFrom, List.filterMap_cons, ih]

theorem storedRecords_loadFrom (lbl : String) (resp : Nat → List Nat)
    (evn : Nat) (ps : List (List Nat)) :
    storedRecords (loadFrom lbl resp evn ps) = [] := by
  induction ps generalizing evn with
  | nil => rfl
  | cons q qs ih =>
    simp only [storedRecords] at ih ⊢
    by_cases hm : resp evn ≠ q <;>
      simp [loadFrom, hm, List.filterMap_cons, List.filterMap_append, ih]

/-- C2: one product per size entry, in order; product `k` has length
`s_k`, and its byte at offset `i` is `i mod 256`; the records a rank
stores are exactly `makeProducts sizes` whatever the rank (and the
rank-seeded RNG, which the generation loop never reads), so equal size
lists give byte-identical record sequences. -/
theorem c2_generator (sizes : List Nat) :
    (makeProducts sizes).length = sizes.length
    ∧ (∀ k : Nat, (makeProducts sizes)[k]? = (sizes[k]?).map mkData)
    ∧ (∀ s, (mkData s).length = s)
    ∧ (∀ s i, (mkData s)[i]? = if i < s then some (i % 256) else none)
    ∧ (∀ (rank : Nat) (ds lbl : String) (resp : Nat → List Nat),
        storedRecords (benchTrace rank ds lbl sizes resp)
          = makeProducts sizes) := by
  refine ⟨by simp [makeProducts], ?_, mkData_length, mkData_get?, ?_⟩
  · intro k
    simp [makeProducts]
  · intro rank ds lbl resp
    have happ : ∀ a b : List BenchEv,
        storedRecords (a ++ b) = storedRecords a ++ storedRecords b := by
      intro a b
      simp [storedRecords, List.filterMap_append]
    have h1 : storedRecords (BenchEv.connect :: resolvePhase rank ds) = [] := by
      by_cases hr : rank = 0 <;>
        simp [resolvePhase, hr, storedRecords, List.filterMap_cons,
          List.filterMap_append]
    have h2 : storedRecords
        (BenchEv.barrier :: storeFrom lbl 0 (makeProducts sizes))
        = makeProducts sizes := by
      have hs := storedRecords_storeFrom lbl 0 (makeProducts sizes)
      simp only [storedRecords, List.filterMap_cons] at hs ⊢
      simpa using hs
    have h3 : storedRecords
        (BenchEv.barrier :: loadFrom lbl resp 0 (makeProducts sizes)) = [] := by
      have hl := storedRecords_loadFrom lbl resp 0 (makeProducts sizes)
      simp only [storedRecords, List.filterMap_cons] at hl ⊢
      simpa using hl
    have h4 : storedRecords
        (BenchEv.barrier :: (if rank = 0 then [BenchEv.shutdown] else [])) = [] := by
      by_cases hr : rank = 0 <;> simp [hr, storedRecords, List.filterMap_cons]
    rw [benchTrace, happ, happ, happ, h1, h2, h3, h4]
    simp

/-! ### The command-line surface (Benchmark.cpp:70-127) -/

/-- The long flag names `parse_arguments` registers with the argument
library, in `cmd.add` order (Benchmark.cpp:98-106): `protocol`,
`margo-config`, `connection`, `dataset`, `label`, `product-sizes`,
`verbose`, `threads`, `wait-range`. No other option is defined. -/
def cliLongFlags : List String :=
  ["protocol", "margo-config", "connection", "dataset", "label",
   "product-sizes", "verbose", "threads", "wait-range"]

/-- C5's premise as stated: the command line accepts a `--disable-stats`
boolean switch. The rest of the claim (conditional per-record emission, an
aggregate coordinator-timed completion message) presupposes this switch
and a timer that likewise do not exist in `run_benchmark`. -/
def disableStatsAccepted : Prop := "disable-stats" ∈ cliLongFlags

/-- C5 counterexample: `parse_arguments` registers no `disable-stats`
switch (Benchmark.cpp:70-127). -/
theorem c5_disable_stats_counterexample : ¬ disableStatsAccepted := by
  unfold disableStatsAccepted cliLongFlags
  decide

theorem storeFrom_infoStore_length (lbl : String) (evn : Nat)
    (ps : List (List Nat)) :
    ((storeFrom lbl evn ps).filter isInfoStore).length = ps.length := by
  induction ps generalizing evn with
  | nil => rfl
  | cons q qs ih => simp [storeFrom, isInfoStore, ih]

theorem loadFrom_infoLoad_length (lbl : String) (resp : Nat → List Nat)
    (evn : Nat) (ps : List (List Nat)) :
    ((loadFrom lbl resp evn ps).filter isInfoLoad).length = ps.length := by
  induction ps generalizing evn with
  | nil => rfl
  | cons q qs ih =>
    by_cases hm : resp evn ≠ q <;> simp [loadFrom, hm, isInfoLoad, isErr, ih]

/-- C5 amended: there is no `--disable-stats` switch; one per-record info
line is emitted per store operation and one per load operation,
unconditionally (Benchmark.cpp:202-203 and 219-220), and `run_benchmark`
emits no aggregate elapsed-time completion message. -/
theorem c5_stats_amended (rank : Nat) (ds lbl : String) (sizes : List Nat)
    (resp : Nat → List Nat) :
    "disable-stats" ∉ cliLongFlags
    ∧ ((benchTrace rank ds lbl sizes resp).filter isInfoStore).length
        = sizes.length
    ∧ ((benchTrace rank ds lbl sizes resp).filter isInfoLoad).length
        = sizes.length := by
  have hml : (makeProducts sizes).length = sizes.length := by simp [makeProducts]
  refine ⟨by unfold cliLongFlags; decide, ?_, ?_⟩
  · have hl := loadFrom_filter_eq_nil lbl resp 0 (makeProducts sizes) isInfoStore
      (fun _ _ => rfl) rfl (fun _ => rfl)
    have hs := storeFrom_infoStore_length lbl 0 (makeProducts sizes)
    by_cases hr : rank = 0 <;>
      simp [benchTrace, resolvePhase, hr, List.filter_append, isInfoStore, hl,
        hs, hml]
  · have hs := storeFrom_filter_eq_nil lbl 0 (makeProducts sizes) isInfoLoad
      (fun _ => rfl) (fun _ _ => rfl) (fun _ => rfl)
    have hl := loadFrom_infoLoad_length lbl resp 0 (makeProducts sizes)
    by_cases hr : rank = 0 <;>
      simp [benchTrace, resolvePhase, hr, List.filter_append, isInfoLoad, hs,
        hl, hml]

/-! ### C7: load-phase mismatches are non-fatal and modify nothing -/

theorem loadFrom_loadOps (lbl : String) (resp : Nat → List Nat) (evn : Nat)
    (ps : List (List Nat)) :
    (loadFrom lbl resp evn ps).filter isLoadOp
      = (List.range ps.length).map (fun i => BenchEv.loadOp lbl (evn + i)) := by
  induction ps generalizing evn with
  | nil => rfl
  | cons q qs ih =>
    have harith : ∀ i : Nat, evn + 1 + i = evn + (i + 1) := by omega
    by_cases hm : resp evn ≠ q <;>
      simp [loadFrom, hm, isLoadOp, isErr, isInfoLoad, ih,
        List.range_succ_eq_map, List.map_map, Function.comp, harith]

/-- The number of records whose loaded copy differs from the original,
counting event numbers from `evn`. -/
def errCountFrom (resp : Nat → List Nat) : Nat → List (List Nat) → Nat
  | _, [] => 0
  | evn, p :: ps =>
    (if resp evn ≠ p then 1 else 0) + errCountFrom resp (evn + 1) ps

theorem loadFrom_err_count (lbl : String) (resp : Nat → List Nat) (evn : Nat)
    (ps : List (List Nat)) :
    ((loadFrom lbl resp evn ps).filter isErr).length
      = errCountFrom resp evn ps := by
  induction ps generalizing evn with
  | nil => rfl
  | cons q qs ih =>
    by_cases hm : resp evn ≠ q <;>
      (simp [loadFrom, errCountFrom, hm, isErr, isLoadOp, isInfoLoad, ih];
        try omega)

theorem loadFrom_filter_nonErr_congr (lbl : String)
    (resp resp2 : Nat → List Nat) (evn : Nat) (ps : List (List Nat)) :
    (loadFrom lbl resp evn ps).filter (fun e => !isErr e)
      = (loadFrom lbl resp2 evn ps).filter (fun e => !isErr e) := by
  have e1 : ∀ s n, isErr (BenchEv.loadOp s n) = false := fun _ _ => rfl
  have e2 : isErr .errorMismatch = true := rfl
  have e3 : ∀ n, isErr (BenchEv.infoLoadLine n) = false := fun _ => rfl
  induction ps generalizing evn with
  | nil => rfl
  | cons q qs ih =>
    by_cases h1 : resp evn ≠ q <;> by_cases h2 : resp2 evn ≠ q <;>
      simp [loadFrom, h1, h2, e1, e2, e3, ih]

/-- C7: in the load phase a mismatch between the loaded buffer and the
original is non-fatal — the loop issues one load per record in order,
emits the per-record info line for every record, logs exactly one error
per mismatching record, and everything except the error log entries is
independent of what the store returned (Benchmark.cpp:210-222; the
mutation-free loop keeps `products` intact and `loaded_products` is never
written). -/
theorem c7_mismatch_nonfatal (lbl : String) (resp : Nat → List Nat)
    (ps : List (List Nat)) :
    ((loadFrom lbl resp 0 ps).filter isLoadOp
       = (List.range ps.length).map (fun i => BenchEv.loadOp lbl i))
    ∧ ((loadFrom lbl resp 0 ps).filter isInfoLoad).length = ps.length
    ∧ ((loadFrom lbl resp 0 ps).filter isErr).length = errCountFrom resp 0 ps
    ∧ (∀ resp2, (loadFrom lbl resp 0 ps).filter (fun e => !isErr e)
        = (loadFrom lbl resp2 0 ps).filter (fun e => !isErr e)) := by
  refine ⟨?_, loadFrom_infoLoad_length lbl resp 0 ps,
    loadFrom_err_count lbl resp 0 ps,
    fun resp2 => loadFrom_filter_nonErr_congr lbl resp resp2 0 ps⟩
  have := loadFrom_loadOps lbl resp 0 ps
  simpa using this

/-! ### C8: store phase, barrier, load phase, barrier -/

def isBarrier : BenchEv → Bool
  | .barrier => true
  | _ => false

/-- `l[i]? = some a → a ∈ l`. -/
theorem mem_of_getElem?_eq {l : List BenchEv} {i : Nat} {a : BenchEv}
    (h : l[i]? = some a) : a ∈ l := by
  obtain ⟨hlt, rfl⟩ := List.getElem?_eq_some.mp h
  exact List.getElem_mem hlt

/-- Length of the store phase: three events per record. -/
def storeLen (sizes : List Nat) : Nat := 3 * sizes.length

/-- Length of the load phase: two events per record plus one per mismatch. -/
def loadLenFrom (resp : Nat → List Nat) : Nat → List (List Nat) → Nat
  | _, [] => 0
  | evn, p :: ps =>
    2 + (if resp evn ≠ p then 1 else 0) + loadLenFrom resp (evn + 1) ps

/-- Index of the `k`-th barrier (`k` = 0, 1, 2) inside a rank's
`benchTrace` (a `k` beyond 2 clamps to the last barrier). -/
def bIdx (rank : Nat) (sizes : List Nat) (resp : Nat → List Nat) : Nat → Nat
  | 0 => 1 + (if rank = 0 then 6 else 3)
  | 1 => 1 + (if rank = 0 then 6 else 3) + 1 + storeLen sizes
  | _ => 1 + (if rank = 0 then 6 else 3) + 1 + storeLen sizes + 1
          + loadLenFrom resp 0 (makeProducts sizes)

/-- The barrier guarantee: an event a rank performs before its `k`-th
barrier happens before any event any rank performs at or after its own
`k`-th barrier, for any global clock `t` consistent with one execution. -/
def BarrierSync (sizes : List Nat) (resp : Nat → List Nat)
    (t : Nat → Nat → Nat) : Prop :=
  ∀ p q k i j, k < 3 → i < bIdx p sizes resp k →
    bIdx q sizes resp k ≤ j → t p i < t q j

theorem resolvePhase_length (rank : Nat) (ds : String) :
    (resolvePhase rank ds).length = if rank = 0 then 6 else 3 := by
  by_cases hr : rank = 0 <;> simp [resolvePhase, hr]

theorem storeFrom_length (lbl : String) (evn : Nat) (ps : List (List Nat)) :
    (storeFrom lbl evn ps).length = 3 * ps.length := by
  induction ps generalizing evn with
  | nil => rfl
  | cons q qs ih => simp [storeFrom, ih]; omega

theorem loadFrom_length (lbl : String) (resp : Nat → List Nat) (evn : Nat)
    (ps : List (List Nat)) :
    (loadFrom lbl resp evn ps).length = loadLenFrom resp evn ps := by
  induction ps generalizing evn with
  | nil => rfl
  | cons q qs ih =>
    by_cases hm : resp evn ≠ q <;>
      simp [loadFrom, loadLenFrom, hm, ih] <;> omega

theorem mem_storeFrom {e : BenchEv} {lbl : String} {evn : Nat}
    {ps : List (List Nat)} (h : e ∈ storeFrom lbl evn ps) :
    (isCreateEvent e || isStoreOp e || isInfoStore e) = true := by
  induction ps generalizing evn with
  | nil => simp [storeFrom] at h
  | cons q qs ih =>
    simp only [storeFrom, List.mem_cons] at h
    rcases h with rfl | rfl | rfl | h
    · rfl
    · rfl
    · rfl
    · exact ih h

theorem mem_loadFrom {e : BenchEv} {lbl : String} {resp : Nat → List Nat}
    {evn : Nat} {ps : List (List Nat)} (h : e ∈ loadFrom lbl resp evn ps) :
    (isLoadOp e || isErr e || isInfoLoad e) = true := by
  induction ps generalizing evn with
  | nil => simp [loadFrom] at h
  | cons q qs ih =>
    rw [loadFrom] at h
    rcases List.mem_cons.mp h with rfl | h2
    · rfl
    rcases List.mem_append.mp h2 with h3 | h4
    · by_cases hm : resp evn ≠ q
      · rw [if_pos hm] at h3
        rcases List.mem_singleton.mp h3 with rfl
        rfl
      · rw [if_neg hm] at h3
        simp at h3
    · rcases List.mem_cons.mp h4 with rfl | h5
      · rfl
      · exact ih h5

theorem mem_resolvePhase {e : BenchEv} {rank : Nat} {ds : String}
    (h : e ∈ resolvePhase rank ds) :
    isStoreOp e = false ∧ isLoadOp e = false := by
  by_cases hr : rank = 0
  · simp only [resolvePhase, hr, if_pos, List.cons_append, List.nil_append,
      List.mem_cons, List.not_mem_nil, or_false] at h
    rcases h with rfl | rfl | rfl | rfl | rfl | rfl <;> exact ⟨rfl, rfl⟩
  · simp only [resolvePhase, hr, if_neg, ite_false, List.nil_append,
      List.mem_cons, List.not_mem_nil, or_false] at h
    rcases h with rfl | rfl | rfl <;> exact ⟨rfl, rfl⟩

/-- A `storeOp` sits strictly before the barrier that follows the store
phase. -/
theorem storeOp_before_mid_barrier {rank : Nat} {ds lbl : String}
    {sizes : List Nat} {resp : Nat → List Nat} {i : Nat} {s : String}
    {d : List Nat}
    (h : (benchTrace rank ds lbl sizes resp)[i]? = some (.storeOp s d)) :
    i < bIdx rank sizes resp 1 := by
  by_contra hge
  push_neg at hge
  have hP : ((BenchEv.connect :: resolvePhase rank ds)
      ++ BenchEv.barrier :: storeFrom lbl 0 (makeProducts sizes)).length
      = bIdx rank sizes resp 1 := by
    by_cases hr : rank = 0 <;>
      simp [resolvePhase_length, storeFrom_length, bIdx, storeLen,
        makeProducts, hr] <;> omega
  rw [benchTrace, List.append_assoc, List.getElem?_append_right (by omega)] at h
  have hmem := mem_of_getElem?_eq h
  rcases List.mem_append.mp hmem with h1 | h1
  · rcases List.mem_cons.mp h1 with h2 | h2
    · simp at h2
    · have := mem_loadFrom h2
      simp [isLoadOp, isErr, isInfoLoad] at this
  · rcases List.mem_cons.mp h1 with h2 | h2
    · simp at h2
    · by_cases hr : rank = 0 <;> simp [hr] at h2

/-- A `loadOp` sits strictly after the barrier that follows the store
phase. -/
theorem loadOp_after_mid_barrier {rank : Nat} {ds lbl : String}
    {sizes : List Nat} {resp : Nat → List Nat} {j : Nat} {s : String}
    {m : Nat}
    (h : (benchTrace rank ds lbl sizes resp)[j]? = some (.loadOp s m)) :
    bIdx rank sizes resp 1 < j := by
  by_contra hle
  push_neg at hle
  have hP : ((BenchEv.connect :: resolvePhase rank ds)
      ++ BenchEv.barrier :: storeFrom lbl 0 (makeProducts sizes)).length
      = bIdx rank sizes resp 1 := by
    by_cases hr : rank = 0 <;>
      simp [resolvePhase_length, storeFrom_length, bIdx, storeLen,
        makeProducts, hr] <;> omega
  rw [benchTrace, List.append_assoc] at h
  rcases Nat.lt_or_ge j ((BenchEv.connect :: resolvePhase rank ds)
      ++ BenchEv.barrier :: storeFrom lbl 0 (makeProducts sizes)).length
    with hlt | hge
  · rw [List.getElem?_append, if_pos hlt] at h
    have hmem := mem_of_getElem?_eq h
    rcases List.mem_append.mp hmem with h1 | h1
    · rcases List.mem_cons.mp h1 with h2 | h2
      · simp at h2
      · exact absurd (mem_resolvePhase h2).2 (by simp [isLoadOp])
    · rcases List.mem_cons.mp h1 with h2 | h2
      · simp at h2
      · have := mem_storeFrom h2
        simp [isCreateEvent, isStoreOp, isInfoStore] at this
  · have h0 : j - ((BenchEv.connect :: resolvePhase rank ds)
        ++ BenchEv.barrier :: storeFrom lbl 0 (makeProducts sizes)).length
        = 0 := by omega
    rw [List.getElem?_append_right hge, h0] at h
    simp at h

/-- C8: every rank's trace is store phase, then a barrier, then load
phase, then another barrier (the three barrier positions are real
barriers); under the barrier guarantee no rank's load operation starts
before any rank's store operation, on any clock consistent with an
execution; and with zero records both phases are empty while all three
barriers are still passed (Benchmark.cpp:195-226). -/
theorem c8_store_barrier_load (ds lbl : String) (sizes : List Nat)
    (resp : Nat → List Nat) :
    (∀ t, BarrierSync sizes resp t →
      ∀ p q i j s1 d s2 m,
        (benchTrace p ds lbl sizes resp)[i]? = some (.storeOp s1 d) →
        (benchTrace q ds lbl sizes resp)[j]? = some (.loadOp s2 m) →
        t p i < t q j)
    ∧ (∀ rank k, k < 3 →
        (benchTrace rank ds lbl sizes resp)[bIdx rank sizes resp k]?
          = some .barrier)
    ∧ (∀ rank,
        (benchTrace rank ds lbl [] resp).filter isStoreOp = []
        ∧ (benchTrace rank ds lbl [] resp).filter isLoadOp = []
        ∧ (benchTrace rank ds lbl [] resp).filter isCreateEvent = []
        ∧ (benchTrace rank ds lbl [] resp).filter isErr = []
        ∧ ((benchTrace rank ds lbl [] resp).filter isBarrier).length = 3) := by
  refine ⟨?_, ?_, ?_⟩
  · intro t hsync p q i j s1 d s2 m hstore hload
    exact hsync p q 1 i j (by omega) (storeOp_before_mid_barrier hstore)
      (Nat.le_of_lt (loadOp_after_mid_barrier hload))
  · intro rank k hk
    have hA : (BenchEv.connect :: resolvePhase rank ds).length
        = bIdx rank sizes resp 0 := by
      by_cases hr : rank = 0 <;> simp [resolvePhase_length, bIdx, hr]
    have hAB : ((BenchEv.connect :: resolvePhase rank ds)
        ++ BenchEv.barrier :: storeFrom lbl 0 (makeProducts sizes)).length
        = bIdx rank sizes resp 1 := by
      by_cases hr : rank = 0 <;>
        simp [resolvePhase_length, storeFrom_length, bIdx, storeLen,
          makeProducts, hr] <;> omega
    have hABC : (((BenchEv.connect :: resolvePhase rank ds)
        ++ BenchEv.barrier :: storeFrom lbl 0 (makeProducts sizes))
        ++ BenchEv.barrier :: loadFrom lbl resp 0 (makeProducts sizes)).length
        = bIdx rank sizes resp 2 := by
      by_cases hr : rank = 0 <;>
        simp [resolvePhase_length, storeFrom_length, loadFrom_length, bIdx,
          storeLen, makeProducts, hr] <;> omega
    interval_cases k
    · rw [benchTrace, List.append_assoc, List.append_assoc,
        List.getElem?_append_right (Nat.le_of_eq hA)]
      have h0 : bIdx rank sizes resp 0
          - (BenchEv.connect :: resolvePhase rank ds).length = 0 := by omega
      rw [h0]
      simp
    · rw [benchTrace, List.append_assoc,
        List.getElem?_append_right (Nat.le_of_eq hAB)]
      have h0 : bIdx rank sizes resp 1
          - ((BenchEv.connect :: resolvePhase rank ds)
            ++ BenchEv.barrier :: storeFrom lbl 0 (makeProducts sizes)).length
          = 0 := by omega
      rw [h0]
      simp
    · rw [benchTrace, List.getElem?_append_right (Nat.le_of_eq hABC)]
      have h0 : bIdx rank sizes resp 2
          - (((BenchEv.connect :: resolvePhase rank ds)
            ++ BenchEv.barrier :: storeFrom lbl 0 (makeProducts sizes))
            ++ BenchEv.barrier :: loadFrom lbl resp 0 (makeProducts sizes)).length
          = 0 := by omega
      rw [h0]
      simp
  · intro rank
    have hempty : makeProducts [] = [] := rfl
    refine ⟨?_, ?_, ?_, ?_, ?_⟩ <;>
      by_cases hr : rank = 0 <;>
        simp [benchTrace, hempty, storeFrom, loadFrom, resolvePhase, hr,
          List.filter_append, isStoreOp, isLoadOp, isCreateEvent, isErr,
          isBarrier]

/-- A clock aligning the two possible trace shapes: rank 0's resolution
phase is three events longer than the others'. -/
def c8Clock (p i : Nat) : Nat := i + (if p = 0 then 0 else 3)

/-- Witness for C8 at one rank, one record of size 1, matching store
responses: positions 9 and 12 of rank 0's trace are the store and the
load, and the claim's ordering holds on the witness clock. -/
theorem c8_store_barrier_load_witness :
    (benchTrace 0 "d" "l" [1] (fun _ => [0]))[9]?
      = some (.storeOp "l" [0])
    ∧ (benchTrace 0 "d" "l" [1] (fun _ => [0]))[12]?
      = some (.loadOp "l" 0)
    ∧ c8Clock 0 9 < c8Clock 0 12 := by
  have hload : loadLenFrom (fun _ => ([0] : List Nat)) 0 (makeProducts [1])
      = 2 := by decide
  have hsync : BarrierSync [1] (fun _ => [0]) c8Clock := by
    intro p q k i j hk hi hj
    interval_cases k <;>
      (by_cases hp : p = 0 <;> by_cases hq : q = 0 <;>
        simp [bIdx, storeLen, hload, hp, hq, c8Clock] at hi hj ⊢ <;> omega)
  refine ⟨by decide, by decide,
    (c8_store_barrier_load "d" "l" [1] (fun _ => [0])).1 c8Clock hsync
      0 0 9 12 "l" [0] "l" 0 (by decide) (by decide)⟩

/-! ### Whole-program model: `main` → `parse_arguments` → `run_benchmark`

`parse_arguments` (Benchmark.cpp:70-127) runs on every rank with the same
argv. Inside its `try`: the argument library may throw (invalid argument);
then `check_file_exists` (Benchmark.cpp:232-242, logs and aborts on every
rank), `parse_product_sizes` (total), `parse_wait_range`. The `catch` only
acts on rank 0 (Benchmark.cpp:120-126): a non-coordinator swallows the
exception and proceeds into `run_benchmark` with the default-initialized
globals (empty strings, empty size list). `run_benchmark` aborts every
rank on a failed connect (Benchmark.cpp:165-168); on success `main`
finalizes and returns 0 (Benchmark.cpp:64-67). -/

/-- The program's environment and command line, as one rank observes it. -/
structure ProgInput where
  connFile : String
  fileExists : Bool
  argExc : Bool
  sizesStr : String
  waitStr : String
  connectOk : Bool
  dsName : String
  lblName : String
  resp : Nat → List Nat

/-- How one process terminates. -/
inductive ProgOutcome where
  | exited (code : Int)
  | aborted (code : Int)
deriving DecidableEq

/-- One rank's execution: its termination, the critical diagnostics it
logs, and its `run_benchmark` trace (empty when it aborts before or at
connect). -/
def progRun (rank : Nat) (inp : ProgInput) :
    ProgOutcome × List Diag × List BenchEv :=
  if inp.argExc then
    if rank = 0 then (.aborted 1, [.argError], [])
    else
      if inp.connectOk then
        (.exited 0, [], benchTrace rank "" "" [] inp.resp)
      else (.aborted 1, [.connectFail], [])
  else if inp.fileExists = false then
    (.aborted (-1), [.fileMissing inp.connFile], [])
  else
    match parse_wait_range rank inp.waitStr with
    | .fatal c d => (.aborted c, [d], [])
    | .ok _ _ =>
      if inp.connectOk then
        (.exited 0, [],
          benchTrace rank inp.dsName inp.lblName
            (parse_product_sizes inp.sizesStr) inp.resp)
      else (.aborted 1, [.connectFail], [])

/-- An inverted wait range: the string matches `NUM,NUM` but the second
value is below the first. -/
def waitOrderBad (s : String) : Prop :=
  ∃ n1 n2, matchWait s.data = some (n1, some n2) ∧ numVal n2 < numVal n1

/-- C4 as stated: for every fatal configuration condition (invalid
argument, missing connection file, invalid wait range — malformed or
inverted), the critical diagnostic is logged only by the coordinator, and
every failing process aborts with a non-zero code. -/
def c4Claim : Prop :=
  ∀ (rank : Nat) (inp : ProgInput),
    (inp.argExc = true ∨ inp.fileExists = false
      ∨ matchWait inp.waitStr.data = none ∨ waitOrderBad inp.waitStr) →
    (((progRun rank inp).2.1 ≠ []) ↔ rank = 0)
    ∧ ∃ c, (progRun rank inp).1 = .aborted c ∧ c ≠ 0

/-- C4 counterexample: with the connection file missing, rank 1 logs the
critical diagnostic too (`check_file_exists` has no rank guard,
Benchmark.cpp:232-242), so the diagnostic is not logged by the coordinator
only. -/
theorem c4_counterexample : ¬ c4Claim := by
  intro hclaim
  have h := hclaim 1
    ⟨"conn.yaml", false, false, "", "", true, "d", "l", fun _ => []⟩
    (Or.inr (Or.inl rfl))
  have h1 := h.1
  simp [progRun] at h1

/-- C4 amended: the behavior is condition-dependent. A missing connection
file and an inverted wait range (`max < min`) make every rank log the
critical diagnostic and abort with a non-zero code; an invalid
command-line argument and a malformed wait-range string make only the
coordinator log and abort, while every non-coordinator proceeds into the
benchmark with a partial/default configuration (relying on the
coordinator's group-wide `MPI_Abort`). -/
theorem c4_fatal_config_amended (rank : Nat) (inp : ProgInput) :
    (inp.argExc = false → inp.fileExists = false →
      progRun rank inp = (.aborted (-1), [.fileMissing inp.connFile], []))
    ∧ (inp.argExc = true → rank = 0 →
        progRun rank inp = (.aborted 1, [.argError], []))
    ∧ (inp.argExc = true → rank ≠ 0 →
        progRun rank inp =
          if inp.connectOk then
            (.exited 0, [], benchTrace rank "" "" [] inp.resp)
          else (.aborted 1, [.connectFail], []))
    ∧ (inp.argExc = false → inp.fileExists = true →
        matchWait inp.waitStr.data = none →
        (rank = 0 →
          progRun rank inp
            = (.aborted (-1), [.invalidWaitExpr inp.waitStr], []))
        ∧ (rank ≠ 0 →
            progRun rank inp =
              if inp.connectOk then
                (.exited 0, [],
                  benchTrace rank inp.dsName inp.lblName
                    (parse_product_sizes inp.sizesStr) inp.resp)
              else (.aborted 1, [.connectFail], [])))
    ∧ (inp.argExc = false → inp.fileExists = true →
        ∀ n1 n2, matchWait inp.waitStr.data = some (n1, some n2) →
        numVal n2 < numVal n1 →
        progRun rank inp
          = (.aborted (-1),
              [.invalidWaitOrder inp.waitStr (numVal n2) (numVal n1)], [])) := by
  refine ⟨?_, ?_, ?_, ?_, ?_⟩
  · intro ha hf
    simp [progRun, ha, hf]
  · intro ha hr
    simp [progRun, ha, hr]
  · intro ha hr
    simp [progRun, ha, hr]
  · intro ha hf hm
    constructor
    · intro hr
      simp [progRun, ha, hf, hr, parse_wait_range, hm]
    · intro hr
      simp [progRun, ha, hf, hr, parse_wait_range, hm]
  · intro ha hf n1 n2 hm hlt
    simp [progRun, ha, hf, parse_wait_range, hm, hlt]

/-- Witness for the amended C4: with the connection file missing, both
rank 0 and rank 1 log the diagnostic and abort; with an argument error,
rank 1 does not abort but proceeds into the benchmark. -/
theorem c4_fatal_config_amended_witness :
    progRun 1 ⟨"conn.yaml", false, false, "", "", true, "d", "l", fun _ => []⟩
      = (.aborted (-1), [.fileMissing "conn.yaml"], [])
    ∧ progRun 0 ⟨"conn.yaml", false, false, "", "", true, "d", "l", fun _ => []⟩
      = (.aborted (-1), [.fileMissing "conn.yaml"], [])
    ∧ (progRun 1 ⟨"c", true, true, "", "", true, "d", "l", fun _ => []⟩).1
      = .exited 0 := by
  refine ⟨(c4_fatal_config_amended 1 _).1 rfl rfl,
    (c4_fatal_config_amended 0 _).1 rfl rfl, ?_⟩
  have h := (c4_fatal_config_amended 1
    ⟨"c", true, true, "", "", true, "d", "l", fun _ => []⟩).2.2.1 rfl
    (by decide)
  rw [h]
  rfl

/-- C10: every execution that reaches the benchmark loop without a fatal
abort (equivalently: whose rank produced a benchmark trace) exits with
code 0, whatever the external store returns during the load phase —
mismatches touch only the log, never the exit status (Benchmark.cpp:64-67
and 216-218). -/
theorem c10_exit_zero (rank : Nat) (inp : ProgInput)
    (h : (progRun rank inp).2.2 ≠ []) :
    (progRun rank inp).1 = .exited 0 := by
  by_cases ha : inp.argExc = true
  · by_cases hr : rank = 0
    · simp [progRun, ha, hr] at h
    · by_cases hc : inp.connectOk = true
      · simp [progRun, ha, hr, hc]
      · simp [progRun, ha, hr, hc] at h
  · by_cases hf : inp.fileExists = false
    · simp [progRun, ha, hf] at h
    · rcases hpw : parse_wait_range rank inp.waitStr with ⟨lo, hi⟩ | ⟨c, d⟩
      · by_cases hc : inp.connectOk = true
        · simp [progRun, ha, hf, hpw, hc]
        · simp [progRun, ha, hf, hpw, hc] at h
      · simp [progRun, ha, hf, hpw] at h

/-- Witness for C10: a run whose single loaded record mismatches the
stored original still exits 0, with the mismatch error in its trace. -/
theorem c10_exit_zero_witness :
    (progRun 0 ⟨"c", true, false, "1", "0", true, "d", "l", fun _ => [9]⟩).1
      = .exited 0
    ∧ BenchEv.errorMismatch
        ∈ (progRun 0 ⟨"c", true, false, "1", "0", true, "d", "l",
            fun _ => [9]⟩).2.2 := by
  have hm : matchWait ("0".data) = some (⟨['0'], none⟩, none) := rfl
  have hv : numVal ⟨['0'], none⟩ = 0 := by
    have h0 : ('0'.toNat - 48) = 0 := by decide
    simp [numVal, digitsVal, digitVal, h0]
  have hw : parse_wait_range 0 "0" = .ok 0 0 := by
    simp [parse_wait_range, hm, hv]
  have hsz : parse_product_sizes "1" = [1] := by decide
  have htr : (progRun 0 ⟨"c", true, false, "1", "0", true, "d", "l",
      fun _ => [9]⟩).2.2 ≠ [] := by
    simp only [progRun, hw, hsz]
    simp [benchTrace]
  refine ⟨c10_exit_zero 0 _ htr, ?_⟩
  simp only [progRun, hw, hsz]
  simp only [Bool.false_eq_true, if_false, if_true, ite_false, ite_true]
  decide

end ICARUSBench
